import Mathlib

/-!
# Verification of the rustls-bench-app core against its specification

This file gives a shallow embedding of the two core source files of the
`ci-bench-runner` crate (`src/db.rs` and `src/job/bench_pr.rs`) and proves or
refutes the specification claims about them.

Modelling conventions:

* `f64` values are modelled by `FVal`: exact rationals extended with the three
  IEEE-754 non-finite values (`inf`, `neginf`, `nan`).  Rounding of finite
  arithmetic is idealised (finite operations are exact), but the special-value
  propagation, comparisons (in which `nan` compares false with everything),
  `f64::max`, the saturating `as u64` cast and division by zero follow the
  IEEE-754 / Rust semantics that the claims under study depend on.  The
  negative zero is identified with zero.
* Rust's comparator-based sorts (`sort_unstable_by` / `sort_by`) are modelled
  by a stable insertion sort parameterised by the boolean "comes before or is
  tied" test derived from the comparator.  The comparator used by the source
  (`partial_cmp(..).unwrap_or(Equal)`) treats `nan` as tied with everything.
* Database tables are lists of row structures kept in insertion (rowid) order;
  `Uuid::new_v4` is modelled by a fresh-identifier counter; timestamps are
  integers passed explicitly as `now` parameters.
* `SELECT ... WHERE` without `ORDER BY` followed by `fetch_optional` returns
  the first matching row in rowid order; `UPDATE ... WHERE` updates every
  matching row.
-/

/-- An IEEE-754 double, idealised: finite values are exact rationals, and the
non-finite values `inf`, `neginf` and `nan` are explicit. -/
inductive FVal where
  | fin : ℚ → FVal
  | inf : FVal
  | neginf : FVal
  | nan : FVal
deriving DecidableEq

namespace FVal

/-- Is the value finite? -/
def isFinite : FVal → Bool
  | fin _ => true
  | _ => false

/-- IEEE negation. -/
def neg : FVal → FVal
  | fin q => fin (-q)
  | inf => neginf
  | neginf => inf
  | nan => nan

/-- IEEE addition (finite part exact). -/
def add : FVal → FVal → FVal
  | nan, _ => nan
  | _, nan => nan
  | fin a, fin b => fin (a + b)
  | fin _, inf => inf
  | fin _, neginf => neginf
  | inf, fin _ => inf
  | inf, inf => inf
  | inf, neginf => nan
  | neginf, fin _ => neginf
  | neginf, inf => nan
  | neginf, neginf => neginf

/-- IEEE subtraction. -/
def sub (x y : FVal) : FVal := x.add y.neg

/-- IEEE multiplication (finite part exact). -/
def mul : FVal → FVal → FVal
  | nan, _ => nan
  | _, nan => nan
  | fin a, fin b => fin (a * b)
  | fin a, inf => if 0 < a then inf else if a < 0 then neginf else nan
  | fin a, neginf => if 0 < a then neginf else if a < 0 then inf else nan
  | inf, fin b => if 0 < b then inf else if b < 0 then neginf else nan
  | neginf, fin b => if 0 < b then neginf else if b < 0 then inf else nan
  | inf, inf => inf
  | inf, neginf => neginf
  | neginf, inf => neginf
  | neginf, neginf => inf

/-- IEEE division (finite part exact; division of a nonzero finite value by
zero gives a signed infinity, `0/0` gives `nan`; zero is treated as `+0`). -/
def div : FVal → FVal → FVal
  | nan, _ => nan
  | _, nan => nan
  | fin a, fin b =>
      if b = 0 then (if 0 < a then inf else if a < 0 then neginf else nan)
      else fin (a / b)
  | fin _, inf => fin 0
  | fin _, neginf => fin 0
  | inf, fin b => if b < 0 then neginf else inf
  | neginf, fin b => if b < 0 then inf else neginf
  | inf, inf => nan
  | inf, neginf => nan
  | neginf, inf => nan
  | neginf, neginf => nan

/-- IEEE absolute value. -/
def abs : FVal → FVal
  | fin q => fin |q|
  | inf => inf
  | neginf => inf
  | nan => nan

/-- IEEE strict less-than: any comparison involving `nan` is false. -/
def blt : FVal → FVal → Bool
  | nan, _ => false
  | _, nan => false
  | fin a, fin b => decide (a < b)
  | fin _, inf => true
  | fin _, neginf => false
  | inf, _ => false
  | neginf, fin _ => true
  | neginf, inf => true
  | neginf, neginf => false

/-- IEEE greater-or-equal: any comparison involving `nan` is false. -/
def bge (x y : FVal) : Bool :=
  match x, y with
  | nan, _ => false
  | _, nan => false
  | x, y => !(blt x y)

/-- Rust's `f64::max`: if one argument is `nan` the other is returned,
otherwise the larger of the two. -/
def fmax (x y : FVal) : FVal :=
  match x, y with
  | nan, y => y
  | x, nan => x
  | x, y => if blt x y then y else x

/-- Rust's saturating cast `as u64` from `f64`: `nan` and nonpositive values
go to `0`, values above `u64::MAX` (and `inf`) to `u64::MAX`, the rest
truncate toward zero (for a positive rational, truncation is `num / den` in
natural division). -/
def toU64 : FVal → ℕ
  | fin q => if q ≤ 0 then 0 else min (q.num.toNat / q.den) (2 ^ 64 - 1)
  | inf => 2 ^ 64 - 1
  | neginf => 0
  | nan => 0

theorem blt_asymm : ∀ x y : FVal, blt x y = true → blt y x = false := by
  intro x y
  cases x <;> cases y <;> simp [blt]
  exact fun h => h.le

theorem mul_comm : ∀ x y : FVal, mul x y = mul y x := by
  intro x y
  cases x <;> cases y <;> simp [mul, Rat.mul_comm]

end FVal

/-! ## A stable insertion sort, modelling Rust's comparator-based sorts

`le a b = true` means "`a` may come before `b`".  For a comparator `c`,
`le a b := (c a b ≠ .gt)`; stability puts an element before the elements it
ties with that were originally after it. -/

/-- Insert `a` in front of the first element `b` of `l` with `le a b`. -/
def insertLe {α : Type _} (le : α → α → Bool) (a : α) : List α → List α
  | [] => [a]
  | b :: bs => if le a b then a :: b :: bs else b :: insertLe le a bs

/-- Stable insertion sort by the boolean test `le`. -/
def insSort {α : Type _} (le : α → α → Bool) : List α → List α
  | [] => []
  | a :: as => insertLe le a (insSort le as)

theorem insertLe_perm {α : Type _} (le : α → α → Bool) (a : α) :
    ∀ l : List α, List.Perm (insertLe le a l) (a :: l) := by
  intro l
  induction l with
  | nil => simp [insertLe]
  | cons b bs ih =>
      simp only [insertLe]
      split
      · exact List.Perm.refl _
      · exact (ih.cons b).trans (List.Perm.swap a b bs)

theorem insSort_perm {α : Type _} (le : α → α → Bool) :
    ∀ l : List α, List.Perm (insSort le l) l := by
  intro l
  induction l with
  | nil => exact List.Perm.refl _
  | cons a as ih =>
      exact (insertLe_perm le a (insSort le as)).trans (ih.cons a)

theorem mem_insertLe {α : Type _} {le : α → α → Bool} {a x : α} {l : List α}
    (h : x ∈ insertLe le a l) : x = a ∨ x ∈ l := by
  have hm := (insertLe_perm le a l).mem_iff.mp h
  simpa using hm

theorem insertLe_chain {α : Type _} {le : α → α → Bool}
    (htot : ∀ a b, le a b = true ∨ le b a = true) (a : α) :
    ∀ {l : List α}, List.Chain' (fun x y => le x y = true) l →
      List.Chain' (fun x y => le x y = true) (insertLe le a l) := by
  intro l
  induction l with
  | nil => intro _; simp [insertLe]
  | cons b bs ih =>
      intro h
      simp only [insertLe]
      by_cases hab : le a b = true
      · rw [if_pos hab]
        exact List.chain'_cons.mpr ⟨hab, h⟩
      · rw [if_neg hab]
        have hba : le b a = true := (htot a b).resolve_left hab
        rcases bs with _ | ⟨c, cs⟩
        · simp only [insertLe]
          exact List.chain'_cons.mpr ⟨hba, List.chain'_singleton a⟩
        · have hbc : le b c = true := (List.chain'_cons.mp h).1
          have htail : List.Chain' (fun x y => le x y = true) (c :: cs) :=
            (List.chain'_cons.mp h).2
          simp only [insertLe]
          by_cases hac : le a c = true
          · rw [if_pos hac]
            exact List.chain'_cons.mpr ⟨hba, List.chain'_cons.mpr ⟨hac, htail⟩⟩
          · rw [if_neg hac]
            have := ih htail
            simp only [insertLe] at this
            rw [if_neg hac] at this
            exact List.chain'_cons.mpr ⟨hbc, this⟩

theorem insSort_chain {α : Type _} {le : α → α → Bool}
    (htot : ∀ a b, le a b = true ∨ le b a = true) :
    ∀ l : List α, List.Chain' (fun x y => le x y = true) (insSort le l) := by
  intro l
  induction l with
  | nil => simp [insSort]
  | cons a as ih => exact insertLe_chain htot a ih

theorem insertLe_pairwise {α : Type _} {le : α → α → Bool}
    (htot : ∀ a b, le a b = true ∨ le b a = true)
    (htrans : ∀ a b c, le a b = true → le b c = true → le a c = true) (a : α) :
    ∀ {l : List α}, List.Pairwise (fun x y => le x y = true) l →
      List.Pairwise (fun x y => le x y = true) (insertLe le a l) := by
  intro l
  induction l with
  | nil => intro _; simp [insertLe]
  | cons b bs ih =>
      intro h
      obtain ⟨hb, hbs⟩ := List.pairwise_cons.mp h
      simp only [insertLe]
      by_cases hab : le a b = true
      · rw [if_pos hab]
        refine List.pairwise_cons.mpr ⟨?_, h⟩
        intro x hx
        rcases List.mem_cons.mp hx with rfl | hx
        · exact hab
        · exact htrans a b x hab (hb x hx)
      · rw [if_neg hab]
        refine List.pairwise_cons.mpr ⟨?_, ih hbs⟩
        intro x hx
        rcases mem_insertLe hx with h' | hx
        · rw [h']
          exact (htot a b).resolve_left hab
        · exact hb x hx

theorem insSort_pairwise {α : Type _} {le : α → α → Bool}
    (htot : ∀ a b, le a b = true ∨ le b a = true)
    (htrans : ∀ a b c, le a b = true → le b c = true → le a c = true) :
    ∀ l : List α, List.Pairwise (fun x y => le x y = true) (insSort le l) := by
  intro l
  induction l with
  | nil => simp [insSort]
  | cons a as ih => exact insertLe_pairwise htot htrans a ih

/-! ## Data model from `src/db.rs` -/

/-- `ScenarioKind` (db.rs): closed enumeration with a single member
representing instruction count, encoded as the integer 0. -/
inductive ScenarioKind where
  | icount
deriving DecidableEq

/-- `BenchResult` (db.rs): one historical benchmark measurement. -/
structure BenchResult where
  name : String
  result : FVal
deriving DecidableEq

/-- `ScenarioDiff` (db.rs). -/
structure ScenarioDiff where
  scenario_name : String
  scenario_kind : ScenarioKind
  baseline_result : FVal
  candidate_result : FVal
  significance_threshold : FVal
  cachegrind_diff : String
deriving DecidableEq

namespace ScenarioDiff

/-- `ScenarioDiff::diff` (db.rs): `candidate_result - baseline_result`. -/
def diff (d : ScenarioDiff) : FVal := d.candidate_result.sub d.baseline_result

/-- `ScenarioDiff::diff_ratio` (db.rs): `self.diff() / baseline_result`. -/
def diff_ratio (d : ScenarioDiff) : FVal := d.diff.div d.baseline_result

end ScenarioDiff

/-- `CompareResult` (db.rs): the outcome of comparing two revisions. -/
structure CompareResult where
  diffs : List ScenarioDiff
  scenarios_missing_in_baseline : List String
deriving DecidableEq

/-! ## Report splitting and rendering from `src/job/bench_pr.rs` -/

/-- `DEFAULT_NOISE_THRESHOLD` (bench_pr.rs): `0.002`. -/
def DEFAULT_NOISE_THRESHOLD : FVal := .fin (1 / 500)

/-- The "comes before" test of the descending sort in `split_on_threshold`:
the source sorts by the comparator
`f64::partial_cmp(&s2.diff_ratio(), &s1.diff_ratio()).unwrap_or(Ordering::Equal)`,
under which `s1` may come before `s2` unless `s1.diff_ratio() < s2.diff_ratio()`
(`nan` ties with everything). -/
def descByRatio (s1 s2 : ScenarioDiff) : Bool :=
  !(FVal.blt s1.diff_ratio s2.diff_ratio)

/-- `split_on_threshold` (bench_pr.rs): diffs with
`diff_ratio().abs() < significance_threshold` go to the negligible half and
all others to the significant half; both halves are then sorted descending by
`diff_ratio()`. -/
def split_on_threshold (diffs : List ScenarioDiff) :
    List ScenarioDiff × List ScenarioDiff :=
  let significant :=
    diffs.filter fun d => !(FVal.blt d.diff_ratio.abs d.significance_threshold)
  let negligible :=
    diffs.filter fun d => FVal.blt d.diff_ratio.abs d.significance_threshold
  (insSort descByRatio significant, insSort descByRatio negligible)

/-- One rendered row of the markdown table produced by `table` (bench_pr.rs):
the fields interpolated into the row, with the numeric formatting abstracted
away. -/
structure RenderedRow where
  scenario_name : String
  emoji : String
  baseline : FVal
  candidate : FVal
  cachegrind_diff_url : String
deriving DecidableEq

/-- `table` (bench_pr.rs), modelled as the list of rendered rows: the emoji
cell is a warning sign when `emoji_feedback` is set and `diff() > 0.0`, a
check mark when `emoji_feedback` is set and `diff() < 0.0`, and empty
otherwise; the per-scenario link appends `/<scenario>` to the diff URL. -/
def table (diffs : List ScenarioDiff) (cachegrind_diff_url : String)
    (emoji_feedback : Bool) : List RenderedRow :=
  diffs.map fun d =>
    { scenario_name := d.scenario_name
      emoji :=
        if emoji_feedback && FVal.blt (.fin 0) d.diff then "⚠️ "
        else if emoji_feedback && FVal.blt d.diff (.fin 0) then "✅ "
        else ""
      baseline := d.baseline_result
      candidate := d.candidate_result
      cachegrind_diff_url := cachegrind_diff_url ++ "/" ++ d.scenario_name }

/-- Textal rendering of one table row (numeric formatting abstracted). -/
def RenderedRow.render (r : RenderedRow) : String :=
  "| " ++ r.scenario_name ++ " | " ++ r.emoji ++ r.cachegrind_diff_url ++ " |\n"

/-- `print_report` (bench_pr.rs), abstracted to the report's structure: a
missing-scenarios warning section when any scenario is missing, the
significant-differences table (placeholder sentence when empty) and the
collapsible other-differences table. -/
def print_report (result : CompareResult) (cachegrind_diff_url : String) :
    String :=
  let halves := split_on_threshold result.diffs
  let missingSection :=
    if result.scenarios_missing_in_baseline.isEmpty then ""
    else
      "### Warning: missing benchmarks\n" ++
        String.join (result.scenarios_missing_in_baseline.map
          fun scenario => "* " ++ scenario ++ "\n")
  let significantSection :=
    if halves.1.isEmpty then
      "_There are no significant instruction count differences_\n"
    else
      String.join ((table halves.1 cachegrind_diff_url true).map
        RenderedRow.render)
  let negligibleSection :=
    if halves.2.isEmpty then
      "_There are no other instruction count differences_\n"
    else
      String.join ((table halves.2 cachegrind_diff_url false).map
        RenderedRow.render)
  "# Benchmark results\n" ++ missingSection ++
    "## Significant instruction count differences\n" ++ significantSection ++
    "## Other instruction count differences\n" ++ negligibleSection

/-! ## Significance analyzer: `calculate_significance_thresholds`
(bench_pr.rs) -/

/-- Association-list lookup, first match in insertion order. -/
def alookup {α : Type _} (name : String) : List (String × α) → Option α
  | [] => none
  | (n, v) :: rest => if n = name then some v else alookup name rest

/-- One `entry(result.name).or_insert(Vec::new()).push(result.result as u64)`
step of the grouping loop in `calculate_significance_thresholds`: append `v`
to the group of `name`, creating the group if it does not exist yet. -/
def upsert (name : String) (v : ℕ) :
    List (String × List ℕ) → List (String × List ℕ)
  | [] => [(name, [v])]
  | (n, vs) :: rest =>
      if n = name then (n, vs ++ [v]) :: rest
      else (n, vs) :: upsert name v rest

/-- The grouping loop of `calculate_significance_thresholds`: group the
`as u64`-truncated results by scenario name, preserving per-name order. -/
def groupByName (historical_results : List BenchResult) :
    List (String × List ℕ) :=
  historical_results.foldl (fun acc r => upsert r.name r.result.toU64 acc) []

/-- The embedding of a `u64` into the double domain (`as f64`, exact in the
idealisation). -/
def finOfNat (n : ℕ) : FVal := .fin (n : ℚ)

/-- The `windows(2)` map of `calculate_significance_thresholds`:
`(window[0] - window[1]).abs() / window[0]` over consecutive pairs. -/
def consecChanges (results : List ℕ) : List FVal :=
  List.zipWith
    (fun a b => ((finOfNat a).sub (finOfNat b)).abs.div (finOfNat a))
    results results.tail

/-- The ascending sort test derived from the source comparator
`x.partial_cmp(y).unwrap_or(Ordering::Equal)` (`nan` ties with everything). -/
def ascFVal (x y : FVal) : Bool := !(FVal.blt y x)

/-- The per-group threshold computation of
`calculate_significance_thresholds`: sort the consecutive changes ascending,
take `q1 = sorted[len/4]` and `q3 = sorted[len*3/4]`, and return
`f64::max(q3 + iqr * 3.0, DEFAULT_NOISE_THRESHOLD)`.  (The source indexes
into a vector that is nonempty for every group the caller admits; the
out-of-range default `nan` here is never reached.) -/
def groupThreshold (results : List ℕ) : FVal :=
  let changes := insSort ascFVal (consecChanges results)
  let q1 := changes.getD (changes.length / 4) .nan
  let q3 := changes.getD (changes.length * 3 / 4) .nan
  let iqr := q3.sub q1
  FVal.fmax (q3.add (iqr.mul (.fin 3))) DEFAULT_NOISE_THRESHOLD

/-- `calculate_significance_thresholds` (bench_pr.rs), as the association
list backing the resulting `HashMap`: groups with fewer than 10 values are
skipped. -/
def calculate_significance_thresholds (historical_results : List BenchResult) :
    List (String × FVal) :=
  (groupByName historical_results).filterMap fun g =>
    if g.2.length < 10 then none else some (g.1, groupThreshold g.2)

/-! ## The claim's view of the significance analyzer (spec §4.8) -/

/-- The values recorded for scenario `name` in `historical_results`, in
order, as raw doubles (spec §4.8 step 1). -/
def scenarioValues (historical_results : List BenchResult) (name : String) :
    List FVal :=
  (historical_results.filter fun r => r.name == name).map fun r => r.result

/-- The claim's threshold formula over a list of values (spec §4.8 steps
3-5): consecutive percent changes `|a - b| / a`, sorted ascending treating
`nan` as equal, `q1 = sorted[n/4]` and `q3 = sorted[3n/4]` by integer floor
division, `iqr = q3 - q1`, threshold `max(q3 + 3*iqr, 0.002)`. -/
def specFormula (vals : List FVal) : FVal :=
  let changes :=
    insSort ascFVal (List.zipWith (fun a b => (a.sub b).abs.div a) vals vals.tail)
  let q1 := changes.getD (changes.length / 4) .nan
  let q3 := changes.getD (changes.length * 3 / 4) .nan
  let iqr := q3.sub q1
  FVal.fmax (q3.add ((FVal.fin 3).mul iqr)) DEFAULT_NOISE_THRESHOLD

/-- The threshold mapping exactly as claim C1 states it: each scenario group
with at least 10 values yields `specFormula` of the group's raw values; each
smaller group yields no entry. -/
def claimThresholdRaw (historical_results : List BenchResult) (name : String) :
    Option FVal :=
  let vals := scenarioValues historical_results name
  if vals.length < 10 then none else some (specFormula vals)

/-- The amended claim's threshold mapping: as `claimThresholdRaw`, except
that the percent changes are computed over the group's values after the
saturating `as u64` truncation performed by the source. -/
def claimThresholdTrunc (historical_results : List BenchResult)
    (name : String) : Option FVal :=
  let vals := (scenarioValues historical_results name).map
    fun v => finOfNat v.toU64
  if vals.length < 10 then none else some (specFormula vals)

/-! ## Persistence store model (`src/db.rs`)

Tables are lists of rows in rowid (insertion) order.  `Uuid::new_v4` is
modelled by the fresh counter `next_id`; `OffsetDateTime` values are integers
supplied explicitly by the caller. -/

/-- A row of the `jobs` table (`BenchJob` in db.rs). -/
structure BenchJob where
  id : ℕ
  event_queued_utc : ℤ
  created_utc : ℤ
  finished_utc : Option ℤ
deriving DecidableEq

/-- A row of the `bench_runs` table. -/
structure BenchRunRow where
  id : ℕ
  created_utc : ℤ
deriving DecidableEq

/-- A row of the `bench_results` table. -/
structure BenchResultRow where
  bench_run_id : ℕ
  name : String
  result : FVal
deriving DecidableEq

/-- A row of the `comparison_runs` table.  The
`scenarios_missing_in_baseline` column is nullable JSON; the JSON encoding of
a string list is modelled by the list itself (the encoding is injective and
round-trips), so the column is an `Option (List String)` and `none` models
SQL `NULL`. -/
structure ComparisonRunRow where
  id : ℕ
  created_utc : ℤ
  baseline_commit : String
  candidate_commit : String
  scenarios_missing_in_baseline : Option (List String)
deriving DecidableEq

/-- A row of the `scenario_diffs` table. -/
structure ScenarioDiffRow where
  comparison_run_id : ℕ
  diff : ScenarioDiff
deriving DecidableEq

/-- The database state: one list per table, in rowid order, plus the fresh
identifier counter. -/
structure DbState where
  jobs : List BenchJob
  bench_runs : List BenchRunRow
  bench_results : List BenchResultRow
  comparison_runs : List ComparisonRunRow
  scenario_diffs : List ScenarioDiffRow
  result_comments : List (ℕ × ℕ)
  next_id : ℕ
deriving DecidableEq

/-- The empty database. -/
def DbState.empty : DbState :=
  { jobs := [], bench_runs := [], bench_results := [], comparison_runs := []
    scenario_diffs := [], result_comments := [], next_id := 0 }

/-- Identifier hygiene of a reachable database state: every stored identifier
is below the fresh counter, so a freshly allocated identifier collides with
no existing row. -/
def DbWf (db : DbState) : Prop :=
  (∀ row ∈ db.comparison_runs, row.id < db.next_id) ∧
    (∀ row ∈ db.scenario_diffs, row.comparison_run_id < db.next_id) ∧
    (∀ run ∈ db.bench_runs, run.id < db.next_id)

/-- `Db::job_finished` (db.rs): `UPDATE jobs SET finished_utc = ? WHERE
id = ?` at the current time `now`. -/
def job_finished (db : DbState) (id : ℕ) (now : ℤ) : DbState :=
  { db with
      jobs := db.jobs.map fun j =>
        if j.id == id then { j with finished_utc := some now } else j }

/-- `Db::maybe_job` (db.rs): `SELECT * FROM jobs WHERE id = ?`,
`fetch_optional`. -/
def maybe_job (db : DbState) (id : ℕ) : Option BenchJob :=
  db.jobs.find? fun j => j.id == id

/-- `Db::store_run_results` (db.rs): one new `bench_runs` row plus one
`bench_results` row per `(name, value)` pair, in one transaction.  Returns
the new run id. -/
def store_run_results (db : DbState) (now : ℤ)
    (icount_results : List (String × FVal)) : DbState × ℕ :=
  let id := db.next_id
  ({ db with
      bench_runs := db.bench_runs ++ [{ id := id, created_utc := now }]
      bench_results := db.bench_results ++
        icount_results.map fun r =>
          { bench_run_id := id, name := r.1, result := r.2 }
      next_id := db.next_id + 1 },
   id)

/-- The ascending "comes before" test on bench runs used by
`ORDER BY created_utc` (ties keep rowid order, as SQLite scans do). -/
def runLe (r1 r2 : BenchRunRow) : Bool :=
  decide (r1.created_utc ≤ r2.created_utc)

/-- `Db::result_history` (db.rs) annotated with the creation timestamp of
each row's bench run: the subquery selects the runs created strictly after
`cutoff_date` ordered by creation time, and the join emits each run's result
rows in rowid order. -/
def result_history_annotated (db : DbState) (cutoff_date : ℤ) :
    List (ℤ × BenchResult) :=
  (insSort runLe
      (db.bench_runs.filter fun run => decide (cutoff_date < run.created_utc))).flatMap
    fun run =>
      (db.bench_results.filter fun row => row.bench_run_id == run.id).map
        fun row => (run.created_utc, { name := row.name, result := row.result })

/-- `Db::result_history` (db.rs): `SELECT name, result FROM bench_results
JOIN (SELECT id FROM bench_runs WHERE created_utc > ? ORDER BY created_utc)
ON id = bench_run_id`. -/
def result_history (db : DbState) (cutoff_date : ℤ) : List BenchResult :=
  (result_history_annotated db cutoff_date).map Prod.snd

/-- `Db::store_comparison_result` (db.rs): insert one `comparison_runs` row
(the missing-scenarios column is NULL for an empty list, the JSON-encoded
list otherwise) and one `scenario_diffs` row per diff, in one transaction.
Returns the new comparison id. -/
def store_comparison_result (db : DbState) (now : ℤ)
    (baseline_commit candidate_commit : String)
    (scenarios_missing : List String) (diffs : List ScenarioDiff) :
    DbState × ℕ :=
  let stored_missing :=
    if scenarios_missing.isEmpty then none else some scenarios_missing
  let id := db.next_id
  ({ db with
      comparison_runs := db.comparison_runs ++
        [{ id := id, created_utc := now, baseline_commit := baseline_commit
           candidate_commit := candidate_commit
           scenarios_missing_in_baseline := stored_missing }]
      scenario_diffs := db.scenario_diffs ++
        diffs.map fun d => { comparison_run_id := id, diff := d }
      next_id := db.next_id + 1 },
   id)

/-- `Db::comparison_result` (db.rs): fetch the first `comparison_runs` row
for the ordered commit pair; a NULL missing-scenarios column deserialises to
the empty list; then collect the diffs of that comparison in rowid order. -/
def comparison_result (db : DbState)
    (baseline_commit candidate_commit : String) : Option CompareResult :=
  (db.comparison_runs.find? fun row =>
      row.baseline_commit == baseline_commit &&
        row.candidate_commit == candidate_commit).map
    fun row =>
      { diffs :=
          (db.scenario_diffs.filter fun d => d.comparison_run_id == row.id).map
            fun d => d.diff
        scenarios_missing_in_baseline :=
          row.scenarios_missing_in_baseline.getD [] }

/-- `Db::store_result_comment_id` (db.rs): `INSERT INTO result_comments`. -/
def store_result_comment_id (db : DbState) (pr_number comment_id : ℕ) :
    DbState :=
  { db with result_comments := db.result_comments ++ [(pr_number, comment_id)] }

/-- `Db::result_comment_id` (db.rs): first `result_comments` row for the PR
number. -/
def result_comment_id (db : DbState) (pr_number : ℕ) : Option ℕ :=
  (db.result_comments.find? fun rc => rc.1 == pr_number).map fun rc => rc.2

/-! ## The bench-PR pipeline (`bench_pr`, bench_pr.rs)

The pipeline's external collaborators (the platform client and the benchmark
runner) are modelled by an environment of call outcomes plus a trace of the
outbound effects the pipeline performs, in order. -/

/-- `RepoAndSha` (lib.rs, reproduced from its uses in bench_pr.rs). -/
structure RepoAndSha where
  branch_name : String
  commit_sha : String
  clone_url : String
deriving DecidableEq

/-- `PrBranches` (bench_pr.rs). -/
structure PrBranches where
  baseline : RepoAndSha
  candidate : RepoAndSha
deriving DecidableEq

/-- Commit status states used by the pipeline. -/
inductive CommitStatus where
  | pending
  | success
  | failure
deriving DecidableEq

/-- Outbound effects of one `bench_pr` call, in order.  `runBenchmarks`
stands for the blocking `compare_refs` task, which is the only place the
injected `BenchRunner` is invoked; `storeComparison` is the persistence of a
fresh comparison; `writeLogs` is the `logs.md` write. -/
inductive Effect where
  | setStatus (sha : String) (status : CommitStatus)
  | runBenchmarks
  | writeLogs
  | storeComparison (baseline candidate : String)
  | updateComment (comment_id : ℕ) (body : String)
  | createComment (pr_number : ℕ) (body : String)
deriving DecidableEq

/-- Outcomes of the external calls made during one `bench_pr` run:
`compareOutcome` is the result of the fresh benchmark comparison (the
`compare_refs` task), the two booleans tell whether editing or creating the
PR comment succeeds, `newCommentId` is the id the platform assigns to a
created comment, `now` is the current time and `app_base_url` the configured
base URL. -/
structure Env where
  compareOutcome : Except String CompareResult
  updateCommentOk : Bool
  createCommentOk : Bool
  newCommentId : ℕ
  now : ℤ
  app_base_url : String

/-- The observable outcome of one `bench_pr` call: the database afterwards,
the ordered trace of outbound effects, and the handler's return value. -/
structure BenchPrOut where
  db : DbState
  trace : List Effect
  result : Except String Unit

/-- Modelled from the spec: `github::maybe_truncate_comment`
(src/github.rs, not among the provided sources).  "Truncate the comment if
it exceeds the platform comment limit." -/
def maybe_truncate_comment (body : String) : String :=
  if body.length ≤ 65536 then body else (body.take 65536)

/-- `BenchPrResult::into_markdown_comment` (bench_pr.rs): a successful
comparison renders the report, an error renders the error section with the
cause and the captured logs (log text abstracted). -/
def into_markdown_comment (result : Except String CompareResult)
    (cachegrind_diff_url : String) : String :=
  match result with
  | .ok bench_results => print_report bench_results cachegrind_diff_url
  | .error cause =>
      "# Error running benchmarks\nCause:\n" ++ cause ++ "\n## Logs\n"

/-- The comment-and-status tail of `bench_pr` (bench_pr.rs): render the
markdown comment, truncate it, edit the stored PR comment if one exists
(otherwise create one and remember its id), and finally set the candidate's
commit status to `Success`.  A failing comment call propagates as the
handler's error and skips the final status update. -/
def post_and_finish (env : Env) (db : DbState) (pr_number : ℕ)
    (branches : PrBranches) (trace : List Effect)
    (result : Except String CompareResult) : BenchPrOut :=
  let cachegrind_diff_url :=
    env.app_base_url ++ "/comparisons/" ++ branches.baseline.commit_sha ++
      ":" ++ branches.candidate.commit_sha ++ "/cachegrind-diff"
  let body := maybe_truncate_comment (into_markdown_comment result cachegrind_diff_url)
  match result_comment_id db pr_number with
  | some comment_id =>
      if env.updateCommentOk then
        { db := db
          trace := trace ++ [.updateComment comment_id body,
            .setStatus branches.candidate.commit_sha .success]
          result := .ok () }
      else
        { db := db
          trace := trace ++ [.updateComment comment_id body]
          result := .error "could not update comment" }
  | none =>
      if env.createCommentOk then
        { db := store_result_comment_id db pr_number env.newCommentId
          trace := trace ++ [.createComment pr_number body,
            .setStatus branches.candidate.commit_sha .success]
          result := .ok () }
      else
        { db := db
          trace := trace ++ [.createComment pr_number body]
          result := .error "could not create comment" }

/-- `bench_pr` (bench_pr.rs): refuse non-`main` bases; set the candidate's
status to `Pending`; use the cached comparison for the commit pair if the
store has one, otherwise run the benchmarks (`bench_pr_and_cache_results`:
run the blocking comparison task, write `logs.md`, and persist the
comparison when it succeeded); then post the report comment and set the
final commit status.  `update_commit_status` swallows platform errors in the
source, so it is modelled as an infallible effect. -/
def bench_pr (env : Env) (db : DbState) (pr_number : ℕ)
    (branches : PrBranches) : BenchPrOut :=
  if branches.baseline.branch_name ≠ "main" then
    { db := db, trace := [], result := .ok () }
  else
    let pending := [Effect.setStatus branches.candidate.commit_sha .pending]
    match comparison_result db branches.baseline.commit_sha
        branches.candidate.commit_sha with
    | some cached => post_and_finish env db pr_number branches pending (.ok cached)
    | none =>
        match env.compareOutcome with
        | .ok fresh =>
            let stored := store_comparison_result db env.now
              branches.baseline.commit_sha branches.candidate.commit_sha
              fresh.scenarios_missing_in_baseline fresh.diffs
            post_and_finish env stored.1 pr_number branches
              (pending ++ [.runBenchmarks, .writeLogs,
                .storeComparison branches.baseline.commit_sha
                  branches.candidate.commit_sha])
              (.ok fresh)
        | .error e =>
            post_and_finish env db pr_number branches
              (pending ++ [.runBenchmarks, .writeLogs]) (.error e)

/-- The last commit-status update in a trace, if any. -/
def lastStatusUpdate (trace : List Effect) : Option (String × CommitStatus) :=
  trace.foldl
    (fun acc e =>
      match e with
      | .setStatus sha status => some (sha, status)
      | _ => acc)
    none

/-! ## Helper lemmas -/

theorem find?_map_of_pred_stable {α : Type _} (f : α → α) (p : α → Bool)
    (hp : ∀ a, p (f a) = p a) :
    ∀ l : List α, (l.map f).find? p = (l.find? p).map f := by
  intro l
  induction l with
  | nil => simp
  | cons a as ih =>
      rw [List.map_cons]
      by_cases ha : p a = true
      · rw [List.find?_cons_of_pos _ ((hp a).trans ha),
          List.find?_cons_of_pos _ ha, Option.map_some']
      · rw [List.find?_cons_of_neg _ (by simpa [hp a] using ha),
          List.find?_cons_of_neg _ ha, ih]

theorem blt_abs_nonfinite (x t : FVal) (hx : x.isFinite = false) :
    FVal.blt x.abs t = false := by
  cases x with
  | fin q => exact absurd hx (by simp [FVal.isFinite])
  | inf => cases t <;> rfl
  | neginf => cases t <;> rfl
  | nan => cases t <;> rfl

theorem bge_eq_not_blt (x y : FVal) (hx : x ≠ .nan) (hy : y ≠ .nan) :
    FVal.bge x y = !(FVal.blt x y) := by
  cases x <;> cases y <;>
    first
      | rfl
      | exact absurd rfl hx
      | exact absurd rfl hy

theorem blt_sub_zero (x y : FVal) :
    FVal.blt (x.sub y) (.fin 0) = FVal.blt x y := by
  cases x <;> cases y <;>
    simp only [FVal.sub, FVal.neg, FVal.add, FVal.blt, decide_eq_decide]
  rw [← sub_eq_add_neg, sub_neg]

theorem descByRatio_total :
    ∀ d1 d2, descByRatio d1 d2 = true ∨ descByRatio d2 d1 = true := by
  intro d1 d2
  unfold descByRatio
  by_cases h : FVal.blt d1.diff_ratio d2.diff_ratio = true
  · right
    simp [FVal.blt_asymm _ _ h]
  · left
    simp [h]

/-! ## Claim C8: idempotence of `job_finished` -/

/-- Claim C8: `job_finished` is idempotent.  For every existing job,
repeating `job_finished` (at the same clock reading `now`, which the pure
embedding passes explicitly) leaves the store exactly as one call does, and
the call sets the job's `finished_utc` to `now`. -/
theorem C8_job_finished_idempotent (db : DbState) (id : ℕ) (now : ℤ)
    (h : (maybe_job db id).isSome = true) :
    job_finished (job_finished db id now) id now = job_finished db id now ∧
      ∃ j, maybe_job (job_finished db id now) id = some j ∧
        j.finished_utc = some now := by
  constructor
  · unfold job_finished
    congr 1
    rw [List.map_map]
    apply List.map_congr_left
    intro j _
    simp only [Function.comp_apply]
    by_cases hj : (j.id == id) = true
    · simp [hj]
    · simp [hj]
  · obtain ⟨j, hj⟩ := Option.isSome_iff_exists.mp h
    unfold maybe_job at hj
    have hpj : (j.id == id) = true := by
      have hs := List.find?_some hj
      simpa using hs
    refine ⟨{ j with finished_utc := some now }, ?_, rfl⟩
    unfold maybe_job job_finished
    rw [find?_map_of_pred_stable _ _ ?stable db.jobs, hj, Option.map_some']
    case stable =>
      intro a
      by_cases ha : (a.id == id) = true
      · simp [ha]
      · simp [ha]
    rw [if_pos hpj]

/-- Concrete store for the C8 witness: a single unfinished job with id 5. -/
def c8db : DbState :=
  { DbState.empty with
      jobs := [{ id := 5, event_queued_utc := 0, created_utc := 1,
                 finished_utc := none }] }

/-- Witness for C8 at a concrete store, job id and clock reading. -/
theorem C8_job_finished_idempotent_witness :
    (maybe_job c8db 5).isSome = true ∧
      (job_finished (job_finished c8db 5 2) 5 2 = job_finished c8db 5 2 ∧
        ∃ j, maybe_job (job_finished c8db 5 2) 5 = some j ∧
          j.finished_utc = some 2) :=
  ⟨by decide, C8_job_finished_idempotent c8db 5 2 (by decide)⟩

/-! ## Claim C10: zero-baseline diffs are never finite and always
significant -/

theorem diff_ratio_zero_baseline (d : ScenarioDiff)
    (h0 : d.baseline_result = .fin 0) :
    d.diff_ratio.isFinite = false ∧
      (∀ q : ℚ, d.candidate_result = .fin q → q ≠ 0 →
        (d.diff_ratio = .inf ∨ d.diff_ratio = .neginf)) ∧
      (d.candidate_result = .fin 0 → d.diff_ratio = .nan) := by
  have hr : d.diff_ratio = (d.candidate_result.sub (FVal.fin 0)).div (FVal.fin 0) := by
    unfold ScenarioDiff.diff_ratio ScenarioDiff.diff
    rw [h0]
  cases hc : d.candidate_result with
  | fin q =>
      have hval : d.diff_ratio =
          if 0 < q then FVal.inf else if q < 0 then FVal.neginf else FVal.nan := by
        rw [hr, hc]
        simp [FVal.sub, FVal.neg, FVal.add, FVal.div]
      rcases lt_trichotomy q 0 with hq | hq | hq
      · rw [hval, if_neg (not_lt.mpr hq.le), if_pos hq]
        refine ⟨rfl, fun p _ _ => Or.inr rfl, fun hzero => ?_⟩
        injection hzero with h
        exact absurd h hq.ne
      · subst hq
        rw [hval, if_neg (lt_irrefl 0), if_neg (lt_irrefl 0)]
        refine ⟨rfl, fun p hp hpne => ?_, fun _ => rfl⟩
        injection hp with h
        exact absurd h.symm hpne
      · rw [hval, if_pos hq]
        refine ⟨rfl, fun p _ _ => Or.inl rfl, fun hzero => ?_⟩
        injection hzero with h
        exact absurd h hq.ne'
  | inf =>
      have hval : d.diff_ratio = FVal.inf := by
        rw [hr, hc]
        simp [FVal.sub, FVal.neg, FVal.add, FVal.div]
      refine ⟨by rw [hval]; rfl, fun p hp => ?_, fun hzero => ?_⟩
      · exact absurd hp (by simp)
      · exact absurd hzero (by simp)
  | neginf =>
      have hval : d.diff_ratio = FVal.neginf := by
        rw [hr, hc]
        simp [FVal.sub, FVal.neg, FVal.add, FVal.div]
      refine ⟨by rw [hval]; rfl, fun p hp => ?_, fun hzero => ?_⟩
      · exact absurd hp (by simp)
      · exact absurd hzero (by simp)
  | nan =>
      have hval : d.diff_ratio = FVal.nan := by
        rw [hr, hc]
        simp [FVal.sub, FVal.neg, FVal.add, FVal.div]
      refine ⟨by rw [hval]; rfl, fun p hp => ?_, fun _ => hval⟩
      exact absurd hp (by simp)

/-- Claim C10: for every scenario diff whose `baseline_result` is `0`, the
diff ratio is not finite (a signed infinity when the candidate is a nonzero
finite value, `nan` when both are zero), and `split_on_threshold` always
places such a diff in the significant half, whatever its significance
threshold, because `|diff_ratio| < threshold` is false for `nan` and for
infinities. -/
theorem C10_zero_baseline_always_significant (diffs : List ScenarioDiff)
    (d : ScenarioDiff) (hmem : d ∈ diffs) (h0 : d.baseline_result = .fin 0) :
    d.diff_ratio.isFinite = false ∧
      (∀ q : ℚ, d.candidate_result = .fin q → q ≠ 0 →
        (d.diff_ratio = .inf ∨ d.diff_ratio = .neginf)) ∧
      (d.candidate_result = .fin 0 → d.diff_ratio = .nan) ∧
      d ∈ (split_on_threshold diffs).1 := by
  obtain ⟨hfin, hinf, hnan⟩ := diff_ratio_zero_baseline d h0
  refine ⟨hfin, hinf, hnan, ?_⟩
  have hblt : FVal.blt d.diff_ratio.abs d.significance_threshold = false :=
    blt_abs_nonfinite _ _ hfin
  show d ∈ insSort descByRatio
    (diffs.filter fun x => !(FVal.blt x.diff_ratio.abs x.significance_threshold))
  refine (insSort_perm _ _).mem_iff.mpr ?_
  exact List.mem_filter.mpr ⟨hmem, by simp [hblt]⟩

/-- Concrete diff for the C10 witness: baseline 0, candidate 2. -/
def c10diff : ScenarioDiff :=
  { scenario_name := "z", scenario_kind := .icount, baseline_result := .fin 0
    candidate_result := .fin 2, significance_threshold := .fin 2
    cachegrind_diff := "w" }

unseal Rat.add Rat.mul Rat.inv Rat.sub in
/-- Witness for C10 at a concrete diff list. -/
theorem C10_zero_baseline_always_significant_witness :
    (c10diff ∈ [c10diff] ∧ c10diff.baseline_result = .fin 0) ∧
      (c10diff.diff_ratio.isFinite = false ∧
        (∀ q : ℚ, c10diff.candidate_result = .fin q → q ≠ 0 →
          (c10diff.diff_ratio = .inf ∨ c10diff.diff_ratio = .neginf)) ∧
        (c10diff.candidate_result = .fin 0 → c10diff.diff_ratio = .nan) ∧
        c10diff ∈ (split_on_threshold [c10diff]).1) :=
  ⟨⟨by decide, by decide⟩,
    C10_zero_baseline_always_significant [c10diff] c10diff (by decide)
      (by decide)⟩

/-! ## Claim C6: the report split -/

/-- Claim C6 (amended): `split_on_threshold` places a diff in the significant
half exactly when `|diff_ratio| < significance_threshold` is false — which
coincides with `|diff_ratio| >= significance_threshold` whenever neither side
is `nan`, while a `nan` ratio or threshold always lands in the significant
half — and in the negligible half otherwise; both halves are sorted by
`diff_ratio` descending (consecutively, `nan` tying with everything). -/
theorem C6_split_on_threshold_amended (diffs : List ScenarioDiff) :
    List.Perm (split_on_threshold diffs).1
        (diffs.filter fun d =>
          !(FVal.blt d.diff_ratio.abs d.significance_threshold)) ∧
      List.Perm (split_on_threshold diffs).2
        (diffs.filter fun d =>
          FVal.blt d.diff_ratio.abs d.significance_threshold) ∧
      (∀ d : ScenarioDiff, d.diff_ratio.abs ≠ .nan →
        d.significance_threshold ≠ .nan →
        (!(FVal.blt d.diff_ratio.abs d.significance_threshold)) =
          FVal.bge d.diff_ratio.abs d.significance_threshold) ∧
      List.Chain' (fun d1 d2 => FVal.blt d1.diff_ratio d2.diff_ratio = false)
        (split_on_threshold diffs).1 ∧
      List.Chain' (fun d1 d2 => FVal.blt d1.diff_ratio d2.diff_ratio = false)
        (split_on_threshold diffs).2 := by
  have hchain1 := insSort_chain descByRatio_total
    (diffs.filter fun d => !(FVal.blt d.diff_ratio.abs d.significance_threshold))
  have hchain2 := insSort_chain descByRatio_total
    (diffs.filter fun d => FVal.blt d.diff_ratio.abs d.significance_threshold)
  refine ⟨insSort_perm _ _, insSort_perm _ _,
    fun d hx ht => (bge_eq_not_blt _ _ hx ht).symm, ?_, ?_⟩
  · refine hchain1.imp ?_
    intro a b h
    unfold descByRatio at h
    cases hb : FVal.blt a.diff_ratio b.diff_ratio
    · rfl
    · rw [hb] at h
      exact absurd h (by simp)
  · refine hchain2.imp ?_
    intro a b h
    unfold descByRatio at h
    cases hb : FVal.blt a.diff_ratio b.diff_ratio
    · rfl
    · rw [hb] at h
      exact absurd h (by simp)

/-- Concrete diff refuting C6 as stated: baseline and candidate both zero,
so the diff ratio is `nan`. -/
def c6diff : ScenarioDiff :=
  { scenario_name := "s", scenario_kind := .icount, baseline_result := .fin 0
    candidate_result := .fin 0, significance_threshold := .fin (1 / 500)
    cachegrind_diff := "x" }

unseal Rat.add Rat.mul Rat.inv Rat.sub in
/-- Counterexample to claim C6 as stated: the split places this diff in the
significant half although `|diff_ratio| >= significance_threshold` (an IEEE
comparison, false when the ratio is `nan`) does not hold, so membership in
the significant half is not equivalent to `|diff_ratio| >= threshold`. -/
theorem C6_split_on_threshold_counterexample :
    (split_on_threshold [c6diff]).1 = [c6diff] ∧
      (split_on_threshold [c6diff]).2 = [] ∧
      FVal.bge c6diff.diff_ratio.abs c6diff.significance_threshold = false := by
  exact ⟨by decide, by decide, by decide⟩

/-! ## Claim C7: table row emojis -/

/-- Claim C7 (amended): in the significant table (`emoji_feedback = true`) a
row carries the warning emoji exactly when `diff() = candidate - baseline` is
positive (which coincides with a positive diff ratio whenever the baseline is
positive) and the check emoji exactly when the candidate is better
(`candidate < baseline`); rows of the non-significant table carry no
emoji. -/
theorem C7_table_emoji_amended (diffs : List ScenarioDiff) (url : String) :
    (∀ row ∈ table diffs url true,
        (row.emoji = "⚠️ " ↔
          FVal.blt (.fin 0) (row.candidate.sub row.baseline) = true) ∧
          (row.emoji = "✅ " ↔
            FVal.blt row.candidate row.baseline = true)) ∧
      ∀ row ∈ table diffs url false, row.emoji = "" := by
  constructor
  · intro row hrow
    obtain ⟨d, _, rfl⟩ := List.mem_map.mp hrow
    show ((if true && FVal.blt (.fin 0) d.diff then "⚠️ "
          else if true && FVal.blt d.diff (.fin 0) then "✅ " else "") = "⚠️ " ↔
            FVal.blt (.fin 0) d.diff = true) ∧
        ((if true && FVal.blt (.fin 0) d.diff then "⚠️ "
          else if true && FVal.blt d.diff (.fin 0) then "✅ " else "") = "✅ " ↔
            FVal.blt d.candidate_result d.baseline_result = true)
    have hsub : FVal.blt d.candidate_result d.baseline_result =
        FVal.blt d.diff (.fin 0) :=
      (blt_sub_zero d.candidate_result d.baseline_result).symm
    rw [hsub]
    simp only [Bool.true_and]
    by_cases h1 : FVal.blt (.fin 0) d.diff = true
    · have h2 := FVal.blt_asymm _ _ h1
      simp [h1, h2]
    · by_cases h2 : FVal.blt d.diff (.fin 0) = true
      · simp [h1, h2]
      · simp [h1, h2]
  · intro row hrow
    obtain ⟨d, _, rfl⟩ := List.mem_map.mp hrow
    show (if false && FVal.blt (.fin 0) d.diff then "⚠️ "
        else if false && FVal.blt d.diff (.fin 0) then "✅ " else "") = ""
    simp

/-- Concrete diff refuting C7 as stated: a negative baseline makes the diff
positive while the diff ratio is negative. -/
def c7diff : ScenarioDiff :=
  { scenario_name := "t", scenario_kind := .icount
    baseline_result := .fin (-1), candidate_result := .fin 0
    significance_threshold := .fin (1 / 500), cachegrind_diff := "y" }

unseal Rat.add Rat.mul Rat.inv Rat.sub in
/-- Counterexample to claim C7 as stated: this diff lands in the significant
table and its row carries the warning emoji, yet its diff ratio is not
positive (the ratio is `-1`: the candidate is 0, the baseline `-1`). -/
theorem C7_table_emoji_counterexample :
    (split_on_threshold [c7diff]).1 = [c7diff] ∧
      (table [c7diff] "u" true).map RenderedRow.emoji = ["⚠️ "] ∧
      FVal.blt (.fin 0) c7diff.diff_ratio = false := by
  exact ⟨by decide, by decide, by decide⟩

/-! ## Claims C2 and C9: the bench-PR pipeline -/

theorem post_and_finish_frame (env : Env) (db : DbState) (pr_number : ℕ)
    (branches : PrBranches) (trace : List Effect)
    (result : Except String CompareResult) :
    (post_and_finish env db pr_number branches trace result).db.comparison_runs
        = db.comparison_runs ∧
      (post_and_finish env db pr_number branches trace result).db.scenario_diffs
        = db.scenario_diffs ∧
      (Effect.runBenchmarks ∈
          (post_and_finish env db pr_number branches trace result).trace ↔
        Effect.runBenchmarks ∈ trace) := by
  unfold post_and_finish
  cases result_comment_id db pr_number with
  | some comment_id =>
      by_cases h : env.updateCommentOk = true
      · simp [h]
      · simp [h]
  | none =>
      by_cases h : env.createCommentOk = true
      · simp [h, store_result_comment_id]
      · simp [h]

/-- Claim C2: whenever the store already holds a comparison for the ordered
pair `(baseline_sha, candidate_sha)`, `bench_pr` uses the cached comparison:
its effect trace never invokes the benchmark runner, and the comparison
tables of the store are left untouched (no new comparison row or diff row is
stored). -/
theorem C2_cached_comparison_short_circuits (env : Env) (db : DbState)
    (pr_number : ℕ) (branches : PrBranches) (cached : CompareResult)
    (hc : comparison_result db branches.baseline.commit_sha
        branches.candidate.commit_sha = some cached) :
    Effect.runBenchmarks ∉ (bench_pr env db pr_number branches).trace ∧
      (bench_pr env db pr_number branches).db.comparison_runs
          = db.comparison_runs ∧
      (bench_pr env db pr_number branches).db.scenario_diffs
          = db.scenario_diffs := by
  unfold bench_pr
  by_cases hmain : branches.baseline.branch_name ≠ "main"
  · rw [if_pos hmain]
    simp
  · rw [if_neg hmain, hc]
    obtain ⟨h1, h2, h3⟩ := post_and_finish_frame env db pr_number branches
      [Effect.setStatus branches.candidate.commit_sha .pending] (.ok cached)
    refine ⟨fun hmem => ?_, h1, h2⟩
    have := h3.mp hmem
    simp at this

/-- Concrete store for the C2 witness: one cached comparison for the pair
`("b", "c")` with no diffs. -/
def c2db : DbState :=
  { DbState.empty with
      comparison_runs :=
        [{ id := 0, created_utc := 0, baseline_commit := "b"
           candidate_commit := "c", scenarios_missing_in_baseline := none }]
      next_id := 1 }

/-- Branches for the C2/C9 witnesses. -/
def cBranches : PrBranches :=
  { baseline := { branch_name := "main", commit_sha := "b", clone_url := "u" }
    candidate := { branch_name := "feat", commit_sha := "c", clone_url := "u" } }

/-- Environment for the C2/C9 witnesses: the fresh comparison would fail, and
both comment calls succeed. -/
def cEnv : Env :=
  { compareOutcome := .error "boom", updateCommentOk := true
    createCommentOk := true, newCommentId := 7, now := 0
    app_base_url := "https://bench" }

/-- Witness for C2 at a concrete store holding a cached comparison. -/
theorem C2_cached_comparison_short_circuits_witness :
    comparison_result c2db "b" "c" =
        some { diffs := [], scenarios_missing_in_baseline := [] } ∧
      (Effect.runBenchmarks ∉ (bench_pr cEnv c2db 1 cBranches).trace ∧
        (bench_pr cEnv c2db 1 cBranches).db.comparison_runs
            = c2db.comparison_runs ∧
        (bench_pr cEnv c2db 1 cBranches).db.scenario_diffs
            = c2db.scenario_diffs) :=
  ⟨by decide,
    C2_cached_comparison_short_circuits cEnv c2db 1 cBranches
      { diffs := [], scenarios_missing_in_baseline := [] } (by decide)⟩

/-- Claim C9: when there is no cached comparison, the fresh comparison
computation fails, and the comment calls succeed, `bench_pr` returns
successfully and the last commit status set on the candidate commit is
`Success`, not `Failure` (the error is reported inside the comment body). -/
theorem C9_error_reported_with_success_status (env : Env) (db : DbState)
    (pr_number : ℕ) (branches : PrBranches) (msg : String)
    (hmain : branches.baseline.branch_name = "main")
    (hnocache : comparison_result db branches.baseline.commit_sha
        branches.candidate.commit_sha = none)
    (herr : env.compareOutcome = .error msg)
    (hupd : env.updateCommentOk = true)
    (hcre : env.createCommentOk = true) :
    (bench_pr env db pr_number branches).result = .ok () ∧
      lastStatusUpdate (bench_pr env db pr_number branches).trace =
        some (branches.candidate.commit_sha, .success) := by
  unfold bench_pr
  rw [if_neg (by simp [hmain]), hnocache, herr]
  unfold post_and_finish
  cases result_comment_id db pr_number with
  | some comment_id =>
      simp [hupd, lastStatusUpdate, List.foldl_append]
  | none =>
      simp [hcre, lastStatusUpdate, List.foldl_append]

/-- Witness for C9 at the empty store: no cached comparison, failing fresh
comparison, successful comment posting. -/
theorem C9_error_reported_with_success_status_witness :
    (cBranches.baseline.branch_name = "main" ∧
        comparison_result DbState.empty "b" "c" = none ∧
        cEnv.compareOutcome = .error "boom" ∧
        cEnv.updateCommentOk = true ∧ cEnv.createCommentOk = true) ∧
      ((bench_pr cEnv DbState.empty 1 cBranches).result = .ok () ∧
        lastStatusUpdate (bench_pr cEnv DbState.empty 1 cBranches).trace =
          some ("c", .success)) :=
  ⟨⟨by decide, by decide, rfl, by decide, by decide⟩,
    C9_error_reported_with_success_status cEnv DbState.empty 1 cBranches
      "boom" (by decide) (by decide) rfl (by decide) (by decide)⟩

/-! ## Claims C4 and C5: comparison store round-trips -/

/-- Claim C4: storing a comparison for a commit pair that has no cached
comparison yet, then reading the pair back, returns a comparison whose diff
collection equals the stored diffs as a multiset. -/
theorem C4_comparison_roundtrip (db : DbState) (now : ℤ)
    (baseline candidate : String) (missing : List String)
    (diffs : List ScenarioDiff) (hwf : DbWf db)
    (hfresh : comparison_result db baseline candidate = none) :
    ∃ cmp, comparison_result
        (store_comparison_result db now baseline candidate missing diffs).1
        baseline candidate = some cmp ∧
      (cmp.diffs : Multiset ScenarioDiff) = (diffs : Multiset ScenarioDiff) := by
  obtain ⟨_, hwf2, _⟩ := hwf
  have hfind : db.comparison_runs.find? (fun row =>
      row.baseline_commit == baseline && row.candidate_commit == candidate)
        = none := by
    unfold comparison_result at hfresh
    exact Option.map_eq_none'.mp hfresh
  have hrow : (store_comparison_result db now baseline candidate missing
      diffs).1.comparison_runs = db.comparison_runs ++
        [⟨db.next_id, now, baseline, candidate,
          if missing.isEmpty then none else some missing⟩] := rfl
  have hdiffrows : (store_comparison_result db now baseline candidate missing
      diffs).1.scenario_diffs = db.scenario_diffs ++
        diffs.map (fun d => (⟨db.next_id, d⟩ : ScenarioDiffRow)) := rfl
  unfold comparison_result
  rw [hrow, hdiffrows, List.find?_append, hfind, Option.none_or,
    List.find?_cons_of_pos _ (by simp)]
  refine ⟨_, rfl, ?_⟩
  have hlist : ((db.scenario_diffs ++
      diffs.map (fun d => (⟨db.next_id, d⟩ : ScenarioDiffRow))).filter
        (fun drow => drow.comparison_run_id == db.next_id)).map
      (fun drow => drow.diff) = diffs := by
    rw [List.filter_append]
    have hold : db.scenario_diffs.filter
        (fun drow => drow.comparison_run_id == db.next_id) = [] := by
      refine List.filter_eq_nil_iff.mpr (fun row hmem => ?_)
      have hlt := hwf2 row hmem
      simp only [beq_iff_eq]
      omega
    have hnew : (diffs.map (fun d => (⟨db.next_id, d⟩ : ScenarioDiffRow))).filter
        (fun drow => drow.comparison_run_id == db.next_id) =
          diffs.map (fun d => (⟨db.next_id, d⟩ : ScenarioDiffRow)) := by
      refine List.filter_eq_self.mpr (fun row hmem => ?_)
      obtain ⟨d, _, rfl⟩ := List.mem_map.mp hmem
      simp
    rw [hold, hnew, List.nil_append, List.map_map]
    show diffs.map (fun d => d) = diffs
    exact List.map_id' diffs
  exact congrArg (fun l : List ScenarioDiff => (l : Multiset ScenarioDiff))
    hlist

/-- Concrete data for the C4/C5 witnesses. -/
def c4diffs : List ScenarioDiff :=
  [⟨"foo", .icount, .fin 85, .fin 84, .fin 1, "fake"⟩,
   ⟨"bar", .icount, .fin 208, .fin 200, .fin 10, "fake 2"⟩]

/-- Witness for C4: store two diffs into the empty store and read them
back. -/
theorem C4_comparison_roundtrip_witness :
    (DbWf DbState.empty ∧ comparison_result DbState.empty "b" "c" = none) ∧
      ∃ cmp, comparison_result
          (store_comparison_result DbState.empty 0 "b" "c" [] c4diffs).1
          "b" "c" = some cmp ∧
        (cmp.diffs : Multiset ScenarioDiff) =
          (c4diffs : Multiset ScenarioDiff) :=
  have hwf : DbWf DbState.empty := by
    refine ⟨?_, ?_, ?_⟩ <;> (intro x hx; cases hx)
  ⟨⟨hwf, by decide⟩,
    C4_comparison_roundtrip DbState.empty 0 "b" "c" [] c4diffs hwf
      (by decide)⟩

/-- Claim C5: storing an empty missing-scenarios list records the column as
absent (NULL, not an empty JSON array) and retrieval yields the empty list;
storing a non-empty list and retrieving it yields exactly the same list. -/
theorem C5_missing_scenarios_roundtrip (db : DbState) (now : ℤ)
    (baseline candidate : String) (missing : List String)
    (diffs : List ScenarioDiff)
    (hfresh : comparison_result db baseline candidate = none) :
    ∃ cmp, comparison_result
        (store_comparison_result db now baseline candidate missing diffs).1
        baseline candidate = some cmp ∧
      cmp.scenarios_missing_in_baseline = missing ∧
      (missing = [] →
        ∀ row ∈ (store_comparison_result db now baseline candidate missing
            diffs).1.comparison_runs,
          row.baseline_commit = baseline → row.candidate_commit = candidate →
            row.scenarios_missing_in_baseline = none) := by
  have hfind : db.comparison_runs.find? (fun row =>
      row.baseline_commit == baseline && row.candidate_commit == candidate)
        = none := by
    unfold comparison_result at hfresh
    exact Option.map_eq_none'.mp hfresh
  have hrow : (store_comparison_result db now baseline candidate missing
      diffs).1.comparison_runs = db.comparison_runs ++
        [⟨db.next_id, now, baseline, candidate,
          if missing.isEmpty then none else some missing⟩] := rfl
  have hmaineq : ∃ cmp, comparison_result
      (store_comparison_result db now baseline candidate missing diffs).1
      baseline candidate = some cmp ∧
      cmp.scenarios_missing_in_baseline =
        (if missing.isEmpty then (none : Option (List String))
          else some missing).getD [] := by
    unfold comparison_result
    rw [hrow, List.find?_append, hfind, Option.none_or,
      List.find?_cons_of_pos _ (by simp)]
    exact ⟨_, rfl, rfl⟩
  obtain ⟨cmp, hcmp, hmiss⟩ := hmaineq
  refine ⟨cmp, hcmp, ?_, ?_⟩
  · rw [hmiss]
    cases missing <;> simp
  · intro hemp row hmem hb hc
    rw [hrow] at hmem
    rcases List.mem_append.mp hmem with hmem | hmem
    · exfalso
      have hnp := List.find?_eq_none.mp hfind row hmem
      simp [hb, hc] at hnp
    · rw [List.mem_singleton.mp hmem]
      simp [hemp]

/-- Witness for C5: store a nonempty missing list and a diff into the empty
store; the empty-missing-list half is exercised through the conditional
conjunct. -/
theorem C5_missing_scenarios_roundtrip_witness :
    comparison_result DbState.empty "b" "c" = none ∧
      ∃ cmp, comparison_result
          (store_comparison_result DbState.empty 0 "b" "c" ["bar"]
            c4diffs).1 "b" "c" = some cmp ∧
        cmp.scenarios_missing_in_baseline = ["bar"] ∧
        (["bar"] = [] →
          ∀ row ∈ (store_comparison_result DbState.empty 0 "b" "c" ["bar"]
              c4diffs).1.comparison_runs,
            row.baseline_commit = "b" → row.candidate_commit = "c" →
              row.scenarios_missing_in_baseline = none) :=
  ⟨by decide,
    C5_missing_scenarios_roundtrip DbState.empty 0 "b" "c" ["bar"] c4diffs
      (by decide)⟩

/-! ## Claim C3: `result_history` returns exactly the post-cutoff results,
ordered by run creation time -/

theorem filter_or_perm {α : Type _} (p q : α → Bool)
    (hdisj : ∀ a, p a = true → q a = false) :
    ∀ l : List α, List.Perm (l.filter p ++ l.filter q)
      (l.filter fun a => p a || q a) := by
  intro l
  induction l with
  | nil => simp
  | cons x xs ih =>
      by_cases hp : p x = true
      · have hq : q x = false := hdisj x hp
        simp only [List.filter_cons, hp, hq, Bool.true_or, if_true,
          Bool.false_eq_true, if_false, List.cons_append]
        exact ih.cons x
      · rw [Bool.not_eq_true] at hp
        by_cases hq : q x = true
        · simp only [List.filter_cons, hp, hq, Bool.false_or, if_true,
            Bool.false_eq_true, if_false]
          exact List.perm_middle.trans (ih.cons x)
        · rw [Bool.not_eq_true] at hq
          simp only [List.filter_cons, hp, hq, Bool.false_or,
            Bool.false_eq_true, if_false]
          exact ih

theorem flatMap_runs_perm (results : List BenchResultRow) :
    ∀ runs : List BenchRunRow, (runs.map BenchRunRow.id).Nodup →
      List.Perm
        (runs.flatMap fun run =>
          results.filter fun row => row.bench_run_id == run.id)
        (results.filter fun row =>
          runs.any fun run => row.bench_run_id == run.id) := by
  intro runs
  induction runs with
  | nil => simp
  | cons run rest ih =>
      intro hnd
      rw [List.map_cons] at hnd
      obtain ⟨hnotin, hndrest⟩ := List.nodup_cons.mp hnd
      have hdisj : ∀ row : BenchResultRow,
          (row.bench_run_id == run.id) = true →
            (rest.any fun r => row.bench_run_id == r.id) = false := by
        intro row hrow
        by_contra hany
        rw [Bool.not_eq_false] at hany
        obtain ⟨r, hr, hid⟩ := List.any_eq_true.mp hany
        rw [beq_iff_eq] at hrow hid
        exact hnotin (List.mem_map.mpr ⟨r, hr, hid.symm.trans hrow⟩)
      rw [List.flatMap_cons]
      refine List.Perm.trans (List.Perm.append_left _ (ih hndrest)) ?_
      refine List.Perm.trans (filter_or_perm _ _ hdisj results) ?_
      have hfun : (fun row : BenchResultRow =>
          (row.bench_run_id == run.id) ||
            rest.any fun r => row.bench_run_id == r.id) =
          fun row : BenchResultRow =>
            (run :: rest).any fun r => row.bench_run_id == r.id := by
        funext row
        rw [List.any_cons]
      rw [hfun]

theorem pairwise_flatMap_of_key {α β : Type _} (f : α → List β)
    (key : β → ℤ) (g : α → ℤ) (hf : ∀ a, ∀ b ∈ f a, key b = g a) :
    ∀ {l : List α}, l.Pairwise (fun a1 a2 => g a1 ≤ g a2) →
      (l.flatMap f).Pairwise (fun b1 b2 => key b1 ≤ key b2) := by
  intro l
  induction l with
  | nil => intro _; simp
  | cons a rest ih =>
      intro h
      obtain ⟨ha, htail⟩ := List.pairwise_cons.mp h
      rw [List.flatMap_cons]
      refine List.pairwise_append.mpr ⟨?_, ih htail, ?_⟩
      · refine List.pairwise_of_forall_mem_list ?_
        intro x hx y hy
        rw [hf a x hx, hf a y hy]
      · intro x hx y hy
        obtain ⟨a2, ha2, hy2⟩ := List.mem_flatMap.mp hy
        rw [hf a x hx, hf a2 y hy2]
        exact ha a2 ha2

theorem runLe_total : ∀ r1 r2, runLe r1 r2 = true ∨ runLe r2 r1 = true := by
  intro r1 r2
  unfold runLe
  rcases le_total r1.created_utc r2.created_utc with h | h
  · exact Or.inl (decide_eq_true h)
  · exact Or.inr (decide_eq_true h)

theorem runLe_trans : ∀ r1 r2 r3, runLe r1 r2 = true → runLe r2 r3 = true →
    runLe r1 r3 = true := by
  intro r1 r2 r3 h1 h2
  unfold runLe at h1 h2 ⊢
  exact decide_eq_true
    (le_trans (of_decide_eq_true h1) (of_decide_eq_true h2))

/-- Claim C3: for every cutoff, `result_history` returns exactly the
`(name, value)` results whose bench run was created strictly after the
cutoff (as a multiset over any store whose run ids are distinct, as
`store_run_results` guarantees), and the returned sequence — whose
timestamp-annotated form `result_history_annotated` it projects — is ordered
by the underlying run's creation timestamp ascending. -/
theorem C3_result_history_exact_and_ordered (db : DbState) (cutoff : ℤ)
    (hids : (db.bench_runs.map BenchRunRow.id).Nodup) :
    List.Perm (result_history db cutoff)
        ((db.bench_results.filter fun row =>
            (db.bench_runs.filter fun run =>
              decide (cutoff < run.created_utc)).any
                fun run => row.bench_run_id == run.id).map
          fun row => ({ name := row.name, result := row.result } : BenchResult)) ∧
      List.Pairwise (fun a b => a.1 ≤ b.1)
        (result_history_annotated db cutoff) := by
  constructor
  · unfold result_history result_history_annotated
    rw [List.map_flatMap]
    have hinner : (fun run : BenchRunRow =>
        ((db.bench_results.filter fun row => row.bench_run_id == run.id).map
          fun row => (run.created_utc,
            ({ name := row.name, result := row.result } : BenchResult))).map
          Prod.snd) =
        fun run : BenchRunRow =>
          (db.bench_results.filter fun row => row.bench_run_id == run.id).map
            fun row => ({ name := row.name, result := row.result } : BenchResult) := by
      funext run
      rw [List.map_map]
      rfl
    rw [hinner]
    have hnd : ((db.bench_runs.filter fun run =>
        decide (cutoff < run.created_utc)).map BenchRunRow.id).Nodup :=
      List.Nodup.sublist ((List.filter_sublist _).map BenchRunRow.id) hids
    refine List.Perm.trans ((insSort_perm runLe _).flatMap_right _) ?_
    rw [← List.map_flatMap]
    exact (flatMap_runs_perm db.bench_results _ hnd).map _
  · unfold result_history_annotated
    have hpw := insSort_pairwise runLe_total runLe_trans
      (db.bench_runs.filter fun run => decide (cutoff < run.created_utc))
    have hpw2 : (insSort runLe (db.bench_runs.filter fun run =>
        decide (cutoff < run.created_utc))).Pairwise
          (fun r1 r2 => r1.created_utc ≤ r2.created_utc) := by
      refine hpw.imp ?_
      intro a b h
      exact of_decide_eq_true h
    refine pairwise_flatMap_of_key _ Prod.fst
      (fun run => run.created_utc) ?_ hpw2
    intro run b hb
    obtain ⟨row, _, rfl⟩ := List.mem_map.mp hb
    rfl

/-- Concrete store for the C3 witness: two runs inserted in reverse
chronological order, one result each, plus a run before the cutoff. -/
def c3db : DbState :=
  { DbState.empty with
      bench_runs := [⟨1, 10⟩, ⟨0, 5⟩, ⟨2, -3⟩]
      bench_results := [⟨0, "a", .fin 1⟩, ⟨1, "b", .fin 2⟩, ⟨2, "c", .fin 3⟩]
      next_id := 3 }

/-- Witness for C3 at a concrete store and cutoff 0. -/
theorem C3_result_history_exact_and_ordered_witness :
    (c3db.bench_runs.map BenchRunRow.id).Nodup ∧
      (List.Perm (result_history c3db 0)
          ((c3db.bench_results.filter fun row =>
              (c3db.bench_runs.filter fun run =>
                decide ((0:ℤ) < run.created_utc)).any
                  fun run => row.bench_run_id == run.id).map
            fun row =>
              ({ name := row.name, result := row.result } : BenchResult)) ∧
        List.Pairwise (fun a b => a.1 ≤ b.1)
          (result_history_annotated c3db 0)) :=
  ⟨by decide, C3_result_history_exact_and_ordered c3db 0 (by decide)⟩

/-! ## Claim C1: the significance analyzer -/

/-- The `as u64`-truncated values of scenario `name`, in order: what the
grouping loop of `calculate_significance_thresholds` accumulates. -/
def truncValues (historical_results : List BenchResult) (name : String) :
    List ℕ :=
  (historical_results.filter fun r => r.name == name).map
    fun r => r.result.toU64

theorem alookup_upsert (name key : String) (v : ℕ) :
    ∀ l : List (String × List ℕ),
      alookup name (upsert key v l) =
        if key = name then some (((alookup name l).getD []) ++ [v])
        else alookup name l := by
  intro l
  induction l with
  | nil =>
      by_cases h : key = name
      · simp [upsert, alookup, h]
      · simp [upsert, alookup, h]
  | cons p rest ih =>
      obtain ⟨n, vs⟩ := p
      by_cases hkn : n = key
      · subst hkn
        simp only [upsert, if_pos rfl]
        by_cases hname : n = name
        · subst hname
          simp [alookup]
        · simp [alookup, hname]
      · simp only [upsert, if_neg hkn]
        by_cases hname : n = name
        · subst hname
          have hkname : ¬ key = n := fun h => hkn h.symm
          simp [alookup, hkname]
        · simp only [alookup, if_neg hname, ih]

theorem alookup_foldl_upsert (name : String) :
    ∀ (hist : List BenchResult) (acc : List (String × List ℕ)),
      alookup name
          (hist.foldl (fun acc r => upsert r.name r.result.toU64 acc) acc) =
        match alookup name acc with
        | some vs => some (vs ++ truncValues hist name)
        | none =>
            if truncValues hist name = [] then none
            else some (truncValues hist name) := by
  intro hist
  induction hist with
  | nil =>
      intro acc
      cases h : alookup name acc <;> simp [truncValues, h]
  | cons r rest ih =>
      intro acc
      rw [List.foldl_cons, ih, alookup_upsert name r.name r.result.toU64 acc]
      by_cases hr : r.name = name
      · have htv : truncValues (r :: rest) name =
            r.result.toU64 :: truncValues rest name := by
          simp [truncValues, List.filter_cons, hr]
        rw [if_pos hr, htv]
        cases h : alookup name acc
        · simp
        · simp [List.append_assoc]
      · have htv : truncValues (r :: rest) name = truncValues rest name := by
          simp [truncValues, List.filter_cons, hr]
        rw [if_neg hr, htv]

theorem alookup_eq_none_iff {α : Type _} (name : String) :
    ∀ l : List (String × α),
      (alookup name l = none ↔ name ∉ l.map Prod.fst) := by
  intro l
  induction l with
  | nil => simp [alookup]
  | cons p rest ih =>
      obtain ⟨n, v⟩ := p
      by_cases h : n = name
      · subst h
        simp [alookup]
      · have hne : ¬ name = n := fun hh => h hh.symm
        simp [alookup, h, hne, ih]

theorem keys_upsert (key : String) (v : ℕ) :
    ∀ l : List (String × List ℕ),
      (upsert key v l).map Prod.fst =
        if alookup key l = none then l.map Prod.fst ++ [key]
        else l.map Prod.fst := by
  intro l
  induction l with
  | nil => simp [upsert, alookup]
  | cons p rest ih =>
      obtain ⟨n, vs⟩ := p
      by_cases h : n = key
      · subst h
        simp [upsert, alookup]
      · simp only [upsert, if_neg h, List.map_cons, alookup, ih]
        by_cases hc : alookup key rest = none
        · simp [hc]
        · simp [hc, h]

theorem nodup_keys_upsert (key : String) (v : ℕ)
    (l : List (String × List ℕ)) (h : (l.map Prod.fst).Nodup) :
    ((upsert key v l).map Prod.fst).Nodup := by
  rw [keys_upsert]
  by_cases hc : alookup key l = none
  · rw [if_pos hc]
    have hkey : key ∉ l.map Prod.fst := (alookup_eq_none_iff key l).mp hc
    exact (List.perm_append_singleton key (l.map Prod.fst)).nodup_iff.mpr
      (List.nodup_cons.mpr ⟨hkey, h⟩)
  · rw [if_neg hc]
    exact h

theorem nodup_keys_groupByName (hist : List BenchResult) :
    ((groupByName hist).map Prod.fst).Nodup := by
  unfold groupByName
  suffices hgen : ∀ acc : List (String × List ℕ), (acc.map Prod.fst).Nodup →
      ((hist.foldl (fun acc r => upsert r.name r.result.toU64 acc)
        acc).map Prod.fst).Nodup by
    exact hgen [] (by simp)
  induction hist with
  | nil =>
      intro acc h
      exact h
  | cons r rest ih =>
      intro acc h
      rw [List.foldl_cons]
      exact ih _ (nodup_keys_upsert _ _ _ h)

theorem alookup_filterMap_thr_none (name : String) :
    ∀ l : List (String × List ℕ), name ∉ l.map Prod.fst →
      alookup name (l.filterMap fun g =>
        if g.2.length < 10 then none
        else some (g.1, groupThreshold g.2)) = none := by
  intro l
  induction l with
  | nil =>
      intro _
      rfl
  | cons g rest ih =>
      intro hmem
      have hsplit : ¬ name = g.1 ∧ name ∉ rest.map Prod.fst := by
        simpa [not_or] using hmem
      rw [List.filterMap_cons]
      by_cases hlen : g.2.length < 10
      · simp only [hlen, if_true]
        exact ih hsplit.2
      · simp only [hlen, if_false]
        have hne : ¬ g.1 = name := fun hh => hsplit.1 hh.symm
        simp only [alookup, if_neg hne]
        exact ih hsplit.2

theorem alookup_filterMap_thr (name : String) :
    ∀ l : List (String × List ℕ), (l.map Prod.fst).Nodup →
      alookup name (l.filterMap fun g =>
          if g.2.length < 10 then none
          else some (g.1, groupThreshold g.2)) =
        (alookup name l).bind fun vs =>
          if vs.length < 10 then none else some (groupThreshold vs) := by
  intro l
  induction l with
  | nil =>
      intro _
      rfl
  | cons g rest ih =>
      intro hnd
      rw [List.map_cons] at hnd
      obtain ⟨hnotin, hndrest⟩ := List.nodup_cons.mp hnd
      obtain ⟨n, vs⟩ := g
      rw [List.filterMap_cons]
      by_cases hn : n = name
      · subst hn
        by_cases hlen : vs.length < 10
        · simp only [hlen, if_true]
          rw [alookup_filterMap_thr_none n rest hnotin]
          simp [alookup, Option.bind, hlen]
        · simp [alookup, Option.bind, hlen]
      · by_cases hlen : vs.length < 10
        · simp only [hlen, if_true]
          rw [ih hndrest]
          simp [alookup, hn]
        · simp [alookup, Option.bind, hn, hlen, ih hndrest]

theorem zipWith_map_both {α β : Type _} (f : β → β → α) (g : ℕ → β) :
    ∀ l1 l2 : List ℕ, List.zipWith f (l1.map g) (l2.map g) =
      List.zipWith (fun a b => f (g a) (g b)) l1 l2 := by
  intro l1
  induction l1 with
  | nil =>
      intro l2
      rfl
  | cons x xs ih =>
      intro l2
      cases l2 with
      | nil => rfl
      | cons y ys => simp [ih]

theorem groupThreshold_eq_specFormula (l : List ℕ) :
    specFormula (l.map finOfNat) = groupThreshold l := by
  have htail : (l.map finOfNat).tail = l.tail.map finOfNat := by
    cases l <;> rfl
  simp only [specFormula, groupThreshold, consecChanges, htail,
    zipWith_map_both]
  rw [FVal.mul_comm]

/-- Claim C1 (amended): for every history of `(name, value)` pairs, each
scenario group with at least 10 values yields the threshold
`max(q3 + 3*iqr, 0.002)` where the consecutive percent changes `|a - b| / a`
are computed over the group's successive values after the saturating
`as u64` truncation the source applies, sorted ascending treating `nan` as
equal, with `q1 = sorted[n/4]`, `q3 = sorted[3n/4]` by integer floor
division and `iqr = q3 - q1`; each group with fewer than 10 values yields no
entry. -/
theorem C1_significance_thresholds_amended (hist : List BenchResult)
    (name : String) :
    alookup name (calculate_significance_thresholds hist) =
      claimThresholdTrunc hist name := by
  unfold calculate_significance_thresholds
  rw [alookup_filterMap_thr name (groupByName hist)
    (nodup_keys_groupByName hist)]
  unfold groupByName
  rw [alookup_foldl_upsert name hist []]
  have hvals : (scenarioValues hist name).map (fun v => finOfNat v.toU64) =
      (truncValues hist name).map finOfNat := by
    unfold scenarioValues truncValues
    rw [List.map_map, List.map_map]
    rfl
  simp only [claimThresholdTrunc, hvals, alookup, List.length_map]
  by_cases htv : truncValues hist name = []
  · rw [htv]
    simp
  · rw [if_neg htv]
    by_cases hlen : (truncValues hist name).length < 10
    · simp [Option.bind, hlen]
    · simp [Option.bind, hlen, groupThreshold_eq_specFormula]

/-- The ten-value history refuting C1 as stated: scenario `foo` alternates
between 100.5 and 100. -/
def c1hist : List BenchResult :=
  [⟨"foo", .fin (201 / 2)⟩, ⟨"foo", .fin 100⟩, ⟨"foo", .fin (201 / 2)⟩,
   ⟨"foo", .fin 100⟩, ⟨"foo", .fin (201 / 2)⟩, ⟨"foo", .fin 100⟩,
   ⟨"foo", .fin (201 / 2)⟩, ⟨"foo", .fin 100⟩, ⟨"foo", .fin (201 / 2)⟩,
   ⟨"foo", .fin 100⟩]

unseal Rat.add Rat.mul Rat.inv Rat.sub in
/-- Counterexample to claim C1 as stated: the source truncates every value
with `as u64` before computing the percent changes, so on this history all
computed changes are zero and the threshold is the 0.002 floor, while the
claim's formula over the raw values gives `17/3350` (about 0.507%). -/
theorem C1_significance_thresholds_counterexample :
    alookup "foo" (calculate_significance_thresholds c1hist) =
        some (.fin (1 / 500)) ∧
      claimThresholdRaw c1hist "foo" = some (.fin (17 / 3350)) ∧
      alookup "foo" (calculate_significance_thresholds c1hist) ≠
        claimThresholdRaw c1hist "foo" := by
  exact ⟨by decide, by decide, by decide⟩
